import Mathlib

/-!
# uitool — verification of the step-editor, case store and execution engine

Shallow embedding of the parts of the `uitool` repository that the claims
C1–C10 talk about:

* the frontend constant tables `getActionTypes` / `getLocatorTypes`
  (`src/frontend/src/api/case.ts`);
* the step-list editor operations `handleAddStep`, `handleDeleteStep`,
  `handleReorderSteps` (ScriptEditor) and the step-order invariant;
* the case store mutation `removeCase` (`src/frontend/src/store/modules/case.ts`);
* the execution store `progress` getter and the `ExecutionConsole` view's
  `progress` computed property;
* the `StepEditor` parameter serialisation (`serializeParams` / `parseParams`)
  together with a model of `JSON.stringify` / `JSON.parse` on flat records
  of scalar values (the only values this component ever stores: strings from
  text inputs and the numeric default of the `wait` timeout);
* the step execution engine (Case Runner), which lives in the backend and is
  not part of the frontend sources; it is modelled from the specification
  (§4.4 Case Runner, §4.5 Failure Capturer, §5 cancellation).

JavaScript numbers that are only ever integral here (ids, counters, counts)
are modelled as `Int` or `Nat`; fallible operations return `Option`.
-/

namespace UiTool

/-! ## Action and locator tables (`src/frontend/src/api/case.ts`) -/

/-- One parameter descriptor inside an entry of `getActionTypes`.
The `wait` entry carries an extra `default` field (5000); the other
entries have no `default`, modelled as `none`. -/
structure ActionParamSpec where
  key : String
  label : String
  required : Bool
  default : Option Nat := none
deriving DecidableEq

/-- One entry of the `getActionTypes` table. -/
structure ActionTypeOption where
  value : String
  label : String
  params : List ActionParamSpec
deriving DecidableEq

/-- `getActionTypes` from `src/frontend/src/api/case.ts` (lines 131–145),
transcribed verbatim. -/
def getActionTypes : List ActionTypeOption :=
  [ { value := "navigate", label := "页面跳转",
      params := [{ key := "url", label := "URL", required := true }] },
    { value := "click", label := "点击元素", params := [] },
    { value := "input", label := "输入文本",
      params := [{ key := "text", label := "输入内容", required := true }] },
    { value := "clear", label := "清空输入", params := [] },
    { value := "wait", label := "等待元素",
      params := [{ key := "timeout", label := "超时时间(ms)", required := false,
                   default := some 5000 }] },
    { value := "verify_text", label := "验证文本",
      params := [{ key := "text", label := "期望文本", required := true }] },
    { value := "verify_element", label := "验证元素", params := [] },
    { value := "select", label := "下拉选择",
      params := [{ key := "value", label := "选项值", required := true }] },
    { value := "hover", label := "鼠标悬停", params := [] },
    { value := "scroll", label := "滚动到元素", params := [] },
    { value := "screenshot", label := "截图", params := [] } ]

/-- One entry of the `getLocatorTypes` table. -/
structure LocatorTypeOption where
  value : String
  label : String
  placeholder : String
deriving DecidableEq

/-- `getLocatorTypes` from `src/frontend/src/api/case.ts` (lines 150–160),
transcribed verbatim. -/
def getLocatorTypes : List LocatorTypeOption :=
  [ { value := "id", label := "ID", placeholder := "#username" },
    { value := "xpath", label := "XPath", placeholder := "//input[@id=\"username\"]" },
    { value := "css", label := "CSS Selector", placeholder := "input#username" },
    { value := "name", label := "Name", placeholder := "[name=\"username\"]" },
    { value := "class", label := "Class", placeholder := ".form-control" },
    { value := "text", label := "文本", placeholder := "文本内容" },
    { value := "data-testid", label := "Data Test ID", placeholder := "[data-testid=\"submit\"]" } ]

/-- The seven action types claim C1 says are the whole table. -/
def claimedSevenActionTypes : List String :=
  ["navigate", "click", "input", "clear", "wait", "verify_text", "verify_element"]

/-- The five locator types claim C2 says are the whole table. -/
def claimedFiveLocatorTypes : List String :=
  ["id", "xpath", "css", "name", "class"]

/-! ## Test steps and the ScriptEditor step-list operations

`TestStep` follows the interface in `src/frontend/src/store/modules/case.ts`
(lines 9–22).  `action_params` is declared there as `string | object`; only
the serialised `string` form flows through the step-list operations, so it is
modelled as `Option String` here (the full union is modelled separately for
the StepEditor round trip below). -/

structure TestStep where
  id : Option Nat := none
  case_id : Option Nat := none
  step_order : Nat
  action_type : String
  element_locator : String
  locator_type : String
  action_params : Option String := none
  expected_result : Option String := none
  description : Option String := none
deriving DecidableEq

/-- The renumbering loop `steps.forEach((s, i) => s.step_order = i + 1)`
that `handleDeleteStep` and `handleReorderSteps` run after mutating the
list, generalised over the first assigned order `n` (the source always
starts at 1). -/
def renumber : Nat → List TestStep → List TestStep
  | _, [] => []
  | n, s :: rest => { s with step_order := n } :: renumber (n + 1) rest

/-- `handleAddStep` (ScriptEditor): sets the new step's `step_order` to
`steps.length + 1` and pushes it. -/
def handleAddStep (steps : List TestStep) (step : TestStep) : List TestStep :=
  steps ++ [{ step with step_order := steps.length + 1 }]

/-- `handleDeleteStep` (ScriptEditor): `steps.splice(index, 1)` followed by
renumbering.  JavaScript `splice` with an out-of-range index removes
nothing, exactly like `List.eraseIdx`. -/
def handleDeleteStep (steps : List TestStep) (index : Nat) : List TestStep :=
  renumber 1 (steps.eraseIdx index)

/-- `handleReorderSteps` (ScriptEditor): `const [removed] =
steps.splice(fromIndex, 1); steps.splice(toIndex, 0, removed)` followed by
renumbering.  When `fromIndex` is out of range `removed` would be
`undefined` in JavaScript; that degenerate case is modelled as `none`. -/
def handleReorderSteps (steps : List TestStep) (fromIndex toIndex : Nat) :
    Option (List TestStep) :=
  (steps.get? fromIndex).map fun removed =>
    renumber 1 ((steps.eraseIdx fromIndex).insertIdx toIndex removed)

/-- The invariant of claim C3: the `step_order` fields read exactly
`1, 2, …, length` in list-position order. -/
def stepOrdersContiguous (steps : List TestStep) : Prop :=
  steps.map TestStep.step_order = List.range' 1 steps.length

instance (steps : List TestStep) : Decidable (stepOrdersContiguous steps) := by
  unfold stepOrdersContiguous; infer_instance

/-- A concrete three-step list used to instantiate the C3 theorem. -/
def demoSteps : List TestStep :=
  [ { step_order := 1, action_type := "navigate", element_locator := "",
      locator_type := "css" },
    { step_order := 2, action_type := "input", element_locator := "#user",
      locator_type := "css" },
    { step_order := 3, action_type := "click", element_locator := "#submit",
      locator_type := "css" } ]

/-! ## The case store (`src/frontend/src/store/modules/case.ts`) -/

/-- `TestCase` interface (lines 24–34 of the store module). -/
structure TestCase where
  id : Int
  name : String
  description : String
  priority : String
  tags : String
  step_count : Nat
  created_at : String
  updated_at : String
  steps : Option (List TestStep) := none
deriving DecidableEq

/-- `Pagination` interface (lines 44–49 of the store module). -/
structure Pagination where
  page : Int
  page_size : Int
  total : Int
  pages : Int
deriving DecidableEq

/-- The slice of the case-store state that `removeCase` touches. -/
structure CaseStoreState where
  cases : List TestCase
  pagination : Pagination
deriving DecidableEq

/-- `removeCase` (store module, lines 128–134): find the index of the case
with the given id; when found, splice it out and decrement
`pagination.total`; otherwise leave the state alone. -/
def removeCase (state : CaseStoreState) (id : Int) : CaseStoreState :=
  match state.cases.findIdx? (fun c => c.id == id) with
  | none => state
  | some index =>
      { state with
        cases := state.cases.eraseIdx index,
        pagination := { state.pagination with total := state.pagination.total - 1 } }

/-- A concrete store state used to instantiate the C10 theorem. -/
def demoState : CaseStoreState :=
  { cases :=
      [ { id := 1, name := "login", description := "", priority := "P0", tags := "",
          step_count := 3, created_at := "", updated_at := "" },
        { id := 2, name := "logout", description := "", priority := "P1", tags := "",
          step_count := 2, created_at := "", updated_at := "" } ],
    pagination := { page := 1, page_size := 20, total := 2, pages := 1 } }

/-! ## Execution records and the two progress computations

`ExecutionStatus`, `ExecutionDetail` and `Execution` follow the interfaces
in the execution store (`src/frontend/src/store/modules/case.ts`, second
document, lines 172–219).  `src/frontend/src/api/execution.ts` re-exports
exactly these types (`export type { Execution, ExecutionDetail } from
'@/store/modules/execution'`), so the record handled by the
`ExecutionConsole` view has these fields and no others. -/

inductive ExecutionStatus
  | pending
  | running
  | completed
  | failed
  | cancelled
deriving DecidableEq

structure ExecutionDetail where
  id : Int
  execution_id : Int
  case_id : Int
  case_name : String
  status : ExecutionStatus
  error_message : Option String := none
  screenshot_path : Option String := none
  step_count : Nat
  passed_steps : Nat
  failed_steps : Nat
  started_at : Option String := none
  completed_at : Option String := none
deriving DecidableEq

structure Execution where
  id : Int
  status : ExecutionStatus
  browser : String
  headless : Bool
  window_size : String
  total_cases : Nat
  passed_cases : Nat
  failed_cases : Nat
  started_at : String
  completed_at : Option String := none
  duration : Option Nat := none
  details : Option (List ExecutionDetail) := none
deriving DecidableEq

/-- `Math.round (num / den)` for non-negative `num` and `den > 0`:
`⌊num / den + 1 / 2⌋ = ⌊(2 num + den) / (2 den)⌋`. -/
def jsRound (num den : Nat) : Nat :=
  (2 * num + den) / (2 * den)

/-- The execution store's `progress` getter (store module, lines 240–246):
`0` with no current execution or `total_cases == 0`, otherwise
`Math.round(((passed_cases + failed_cases) / total_cases) * 100)`. -/
def storeProgress (currentExecution : Option Execution) : Nat :=
  match currentExecution with
  | none => 0
  | some e =>
      if e.total_cases = 0 then 0
      else jsRound ((e.passed_cases + e.failed_cases) * 100) e.total_cases

/-- The `ExecutionConsole` view's `progress` computed property
(`ExecutionConsole.vue`, lines 265–270).  It destructures
`total_count`, `success_count` and `fail_count` (with default `0`) from the
current `Execution` — but the `Execution` record has no such fields (its
fields are `total_cases`, `passed_cases`, `failed_cases`, which the very
same component's template reads), so each destructured binding takes its
default `0` and the computation short-circuits on `total_count === 0`. -/
def consoleProgress (currentExecution : Option Execution) : Nat :=
  match currentExecution with
  | none => 0
  | some _ =>
      let total_count : Nat := 0
      let success_count : Nat := 0
      let fail_count : Nat := 0
      if total_count = 0 then 0
      else jsRound ((success_count + fail_count) * 100) total_count

/-- A concrete running execution: 2 cases total, 1 passed so far.
The store getter reports 50% on it; the console view reports 0%. -/
def c8Execution : Execution :=
  { id := 1, status := .running, browser := "chrome", headless := true,
    window_size := "1920x1080", total_cases := 2, passed_cases := 1,
    failed_cases := 0, started_at := "2026-10-01T00:00:00" }

end UiTool

namespace UiTool.Engine

/-! ## The step execution engine (Case Runner)

Modelled from the spec: the execution engine (Session Manager, Locator
Resolver, Action Dispatcher, Case Runner, Failure Capturer) is backend code
that is absent from `src/` (the backend directory holds only a README and a
test script), so the Case Runner loop, its cooperative cancellation and the
failure-evidence rule are modelled from spec §3 (StepResult/CaseResult),
§4.4 (Case Runner state machine), §4.5 (Failure Capturer) and §5
(cancellation at step boundaries).

The browser-facing components are abstracted into two functions: `exec`
maps a step to the outcome of resolving its locator and dispatching its
action (success flag, human-readable message, and whether evidence capture
would succeed at that moment), and `shot` yields the screenshot reference
the Failure Capturer returns when capture succeeds.  The cooperative
cancellation flag is a function `cancel` of the step boundary index: the
Case Runner reads it once before starting each step. -/

/-- Modelled from the spec: a step as the missing backend engine receives
it (spec §3 `TestStep`) — the fields the runner itself looks at. -/
structure Step where
  order : Nat
  action_type : String
deriving DecidableEq

/-- Modelled from the spec: outcome of locator resolution plus action
dispatch for one step, as produced by the browser session the missing
backend engine drives. `captureOk` tells whether the Failure Capturer would
succeed if invoked at this point (spec §4.5: capture failures are non-fatal
and simply leave the screenshot out). -/
structure StepOutcome where
  success : Bool
  message : String
  captureOk : Bool
deriving DecidableEq

/-- Modelled from the spec: per-step terminal states of the missing Case
Runner (spec §4.4) — `succeeded`, `failed`, `skipped`. -/
inductive StepStatus
  | succeeded
  | failed
  | skipped
deriving DecidableEq

/-- Modelled from the spec: `StepResult` of the missing engine (spec §3) —
order, action type, success flag, message, optional structured error,
optional screenshot reference (present iff the step failed and capture
succeeded). -/
structure StepResult where
  order : Nat
  action_type : String
  success : Bool
  message : String
  error : Option String
  status : StepStatus
  screenshot : Option String
deriving DecidableEq

/-- Modelled from the spec: the StepResult the missing Case Runner records
for an executed step (spec §4.4 steps (2)–(5) and §4.5) — on failure the
Failure Capturer is invoked and the screenshot reference is filled exactly
when capture succeeds. -/
def mkStepResult (exec : Step → StepOutcome) (shot : Step → String) (s : Step) :
    StepResult :=
  let o := exec s
  { order := s.order,
    action_type := s.action_type,
    success := o.success,
    message := o.message,
    error := if o.success then none else some o.message,
    status := if o.success then .succeeded else .failed,
    screenshot := if o.success then none
                  else if o.captureOk then some (shot s) else none }

/-- Modelled from the spec: the StepResult the missing Case Runner records
for a step skipped because cancellation was observed at a step boundary
(spec §4.4 step (1)) — the step never starts, so no action runs and no
evidence is captured. -/
def skippedResult (s : Step) : StepResult :=
  { order := s.order,
    action_type := s.action_type,
    success := false,
    message := "skipped",
    error := none,
    status := .skipped,
    screenshot := none }

/-- Modelled from the spec: the missing Case Runner loop (spec §4.4) —
before each step, read the cooperative cancellation flag at the current
boundary index `i`; when it is set, mark this and all remaining steps
`skipped` and stop; otherwise execute the step, append its StepResult, and
continue with the next step regardless of that step's outcome (the
deliberate keep-going policy). -/
def runSteps (exec : Step → StepOutcome) (shot : Step → String)
    (cancel : Nat → Bool) : Nat → List Step → List StepResult
  | _, [] => []
  | i, s :: rest =>
      if cancel i then (s :: rest).map skippedResult
      else mkStepResult exec shot s :: runSteps exec shot cancel (i + 1) rest

/-- Modelled from the spec: `CaseResult` of the missing engine (spec §3) —
case id, overall success, step counts, ordered step results. -/
structure CaseResult where
  case_id : Int
  success : Bool
  total_count : Nat
  success_count : Nat
  failed_count : Nat
  step_results : List StepResult
deriving DecidableEq

/-- Modelled from the spec: the missing `execute_case` entry point (§4.4,
§6) — run the steps in order, then aggregate: overall success is the AND of
all step successes, and the counts tally the executed (non-skipped)
results. -/
def runCase (exec : Step → StepOutcome) (shot : Step → String)
    (cancel : Nat → Bool) (case_id : Int) (steps : List Step) : CaseResult :=
  let results := runSteps exec shot cancel 0 steps
  { case_id := case_id,
    success := results.foldl (fun b r => b && r.success) true,
    total_count := results.countP (fun r => !(r.status == StepStatus.skipped)),
    success_count := results.countP (fun r => r.status == StepStatus.succeeded),
    failed_count := results.countP (fun r => r.status == StepStatus.failed),
    step_results := results }

/-- Five demo steps for the cancellation scenario of spec §8. -/
def demoEngineSteps : List Step :=
  [ { order := 1, action_type := "navigate" },
    { order := 2, action_type := "input" },
    { order := 3, action_type := "click" },
    { order := 4, action_type := "verify_text" },
    { order := 5, action_type := "screenshot" } ]

/-- A demo executor: every step succeeds except order 4, whose evidence
capture succeeds. -/
def demoExec (s : Step) : StepOutcome :=
  if s.order = 4 then { success := false, message := "text not found", captureOk := true }
  else { success := true, message := "ok", captureOk := true }

/-- A demo screenshot-reference generator. -/
def demoShot (s : Step) : String :=
  "shots/step_" ++ toString s.order ++ ".png"

/-- A demo cancellation flag: requested at boundary 2 (after two steps
completed) and, being a latched flag, observed at every later boundary. -/
def demoCancel (i : Nat) : Bool :=
  decide (2 ≤ i)

end UiTool.Engine

namespace UiTool.StepEditor

/-! ## StepEditor parameter serialisation (`StepEditor.vue`, lines 154–190)

`serializeParams` turns the component's `action_params_value` record into a
JSON string with `JSON.stringify` (or `undefined` for the empty record);
`parseParams` accepts `undefined`, an already-parsed object, or a JSON
string, and falls back to the empty record when `JSON.parse` throws.

The record values this component ever stores are scalars: strings bound to
text inputs and the numeric default of the `wait` timeout (`5000`), so the
`JSON.stringify` / `JSON.parse` pair is modelled on flat records of scalar
JSON values.  The printer emits exactly what `JSON.stringify` emits (no
whitespace, the standard two-character escapes, and `\u00XX` for remaining
control characters); the parser follows the JSON grammar for that shape and
demands that the whole input be consumed, as `JSON.parse` does. -/

/-- A scalar JSON value: string, (integral) number, boolean or null. -/
inductive JVal
  | str : String → JVal
  | num : Int → JVal
  | bool : Bool → JVal
  | null : JVal
deriving DecidableEq

/-- The opening brace character, spelled by code point. -/
def braceL : Char := Char.ofNat 123

/-- The closing brace character, spelled by code point. -/
def braceR : Char := Char.ofNat 125

/-- Hexadecimal digit characters `0`–`9`, `a`–`f` (lower case, as
`JSON.stringify` emits them). -/
def hexDigitChar (n : Nat) : Char :=
  if n < 10 then Char.ofNat (48 + n) else Char.ofNat (87 + n)

/-- How `JSON.stringify` escapes one character inside a string literal:
quote and backslash get a backslash escape, the five named control
characters get their short escapes, the remaining control characters get
`\u00XX`, and every other character is emitted as itself. -/
def escapeChar (c : Char) : List Char :=
  if c = '"' then ['\\', '"']
  else if c = '\\' then ['\\', '\\']
  else if c = Char.ofNat 8 then ['\\', 'b']
  else if c = '\t' then ['\\', 't']
  else if c = '\n' then ['\\', 'n']
  else if c = Char.ofNat 12 then ['\\', 'f']
  else if c = '\r' then ['\\', 'r']
  else if c.toNat < 32 then
    ['\\', 'u', '0', '0', hexDigitChar (c.toNat / 16), hexDigitChar (c.toNat % 16)]
  else [c]

/-- Escape a whole character sequence. -/
def escapeList : List Char → List Char
  | [] => []
  | c :: rest => escapeChar c ++ escapeList rest

/-- A JSON string literal: quote, escaped content, quote. -/
def quoteStr (s : String) : List Char :=
  '"' :: escapeList s.data ++ ['"']

/-- Little-endian decimal digits of `n` (empty for `0`), with explicit
structural fuel so that the definition reduces inside the kernel; `fuel ≥ n`
is always enough because the argument at least halves each step. -/
def natToRevDigits : Nat → Nat → List Nat
  | 0, _ => []
  | _ + 1, 0 => []
  | fuel + 1, n + 1 => ((n + 1) % 10) :: natToRevDigits fuel ((n + 1) / 10)

/-- Decimal notation of a natural number. -/
def printNat (n : Nat) : List Char :=
  if n = 0 then ['0']
  else ((natToRevDigits n n).reverse.map fun d => Char.ofNat (48 + d))

/-- Decimal notation of an integer, as `JSON.stringify` emits it. -/
def printInt (i : Int) : List Char :=
  if i < 0 then '-' :: printNat i.natAbs else printNat i.toNat

/-- Serialise one scalar JSON value. -/
def printJVal : JVal → List Char
  | .str s => quoteStr s
  | .num i => printInt i
  | .bool true => ['t', 'r', 'u', 'e']
  | .bool false => ['f', 'a', 'l', 's', 'e']
  | .null => ['n', 'u', 'l', 'l']

/-- Serialise one `"key":value` member. -/
def printMember (m : String × JVal) : List Char :=
  quoteStr m.1 ++ ':' :: printJVal m.2

/-- Serialise the comma-separated member list. -/
def printMembers : List (String × JVal) → List Char
  | [] => []
  | [m] => printMember m
  | m :: m' :: rest => printMember m ++ ',' :: printMembers (m' :: rest)

/-- `JSON.stringify` on a flat record of scalar values. -/
def jsonStringifyRecord (p : List (String × JVal)) : List Char :=
  braceL :: printMembers p ++ [braceR]

/-- Decimal digit test (`'0' ≤ c ≤ '9'`). -/
def isDigitChar (c : Char) : Bool :=
  48 ≤ c.toNat && c.toNat ≤ 57

/-- Value of a hexadecimal digit character, if it is one. -/
def hexVal? (c : Char) : Option Nat :=
  if 48 ≤ c.toNat && c.toNat ≤ 57 then some (c.toNat - 48)
  else if 97 ≤ c.toNat && c.toNat ≤ 102 then some (c.toNat - 87)
  else if 65 ≤ c.toNat && c.toNat ≤ 70 then some (c.toNat - 55)
  else none

/-- The character denoted by a short escape `\x`, if `x` is one of the
JSON escape letters. -/
def unescape? (e : Char) : Option Char :=
  if e = '"' then some '"'
  else if e = '\\' then some '\\'
  else if e = '/' then some '/'
  else if e = 'b' then some (Char.ofNat 8)
  else if e = 'f' then some (Char.ofNat 12)
  else if e = 'n' then some '\n'
  else if e = 'r' then some '\r'
  else if e = 't' then some '\t'
  else none

/-- Parse the body of a JSON string literal (the opening quote already
consumed): returns the decoded characters and the input after the closing
quote.  The explicit fuel (one unit per decoded character; callers pass the
input length, which is always enough) keeps the recursion structural.
`\uXXXX` escapes outside the valid scalar range decode through
`Char.ofNat`'s default; the printer above never emits those. -/
def parseStrBody : Nat → List Char → Option (List Char × List Char)
  | 0, _ => none
  | _, [] => none
  | fuel + 1, c :: rest =>
      if c = '"' then some ([], rest)
      else if c = '\\' then
        match rest with
        | [] => none
        | e :: rest2 =>
            if e = 'u' then
              match rest2 with
              | h1 :: h2 :: h3 :: h4 :: rest3 =>
                  (hexVal? h1).bind fun v1 =>
                  (hexVal? h2).bind fun v2 =>
                  (hexVal? h3).bind fun v3 =>
                  (hexVal? h4).bind fun v4 =>
                  (parseStrBody fuel rest3).map fun p =>
                    (Char.ofNat (((v1 * 16 + v2) * 16 + v3) * 16 + v4) :: p.1, p.2)
              | _ => none
            else
              (unescape? e).bind fun u =>
                (parseStrBody fuel rest2).map fun p => (u :: p.1, p.2)
      else (parseStrBody fuel rest).map fun p => (c :: p.1, p.2)

/-- Split the longest prefix of decimal digits off the input. -/
def takeDigits : List Char → List Char × List Char
  | [] => ([], [])
  | c :: rest =>
      if isDigitChar c then
        let p := takeDigits rest
        (c :: p.1, p.2)
      else ([], c :: rest)

/-- Numeric value of a big-endian digit-character sequence. -/
def parseNatFromChars (ds : List Char) : Nat :=
  ds.foldl (fun acc c => acc * 10 + (c.toNat - 48)) 0

/-- Parse a non-empty run of decimal digits as a natural number. -/
def parseNatPart (l : List Char) : Option (Nat × List Char) :=
  let p := takeDigits l
  if p.1.isEmpty then none else some (parseNatFromChars p.1, p.2)

/-- Parse one scalar JSON value. -/
def parseJVal (l : List Char) : Option (JVal × List Char) :=
  match l with
  | [] => none
  | c :: rest =>
      if c = '"' then
        (parseStrBody rest.length rest).map fun p => (JVal.str (String.mk p.1), p.2)
      else if c = '-' then
        (parseNatPart rest).map fun p => (JVal.num (-(p.1 : Int)), p.2)
      else if c = 't' then
        match rest with
        | 'r' :: 'u' :: 'e' :: r => some (JVal.bool true, r)
        | _ => none
      else if c = 'f' then
        match rest with
        | 'a' :: 'l' :: 's' :: 'e' :: r => some (JVal.bool false, r)
        | _ => none
      else if c = 'n' then
        match rest with
        | 'u' :: 'l' :: 'l' :: r => some (JVal.null, r)
        | _ => none
      else
        (parseNatPart (c :: rest)).map fun p => (JVal.num ((p.1 : Nat) : Int), p.2)

/-- Parse the non-empty member list of a JSON object, up to and including
the closing brace; the fuel bounds the number of members (one unit per
member suffices). -/
def parseMembers : Nat → List Char → Option (List (String × JVal) × List Char)
  | 0, _ => none
  | fuel + 1, l =>
      match l with
      | c :: rest =>
          if c = '"' then
            (parseStrBody rest.length rest).bind fun k =>
              match k.2 with
              | c2 :: r2 =>
                  if c2 = ':' then
                    (parseJVal r2).bind fun v =>
                      match v.2 with
                      | c3 :: r3 =>
                          if c3 = ',' then
                            (parseMembers fuel r3).map fun p =>
                              ((String.mk k.1, v.1) :: p.1, p.2)
                          else if c3 = braceR then
                            some ([(String.mk k.1, v.1)], r3)
                          else none
                      | [] => none
                  else none
              | [] => none
          else none
      | [] => none

/-- `JSON.parse` on the object shape above: an opening brace, an empty or
non-empty member list, the closing brace, and nothing after it. -/
def jsonParseRecord (l : List Char) : Option (List (String × JVal)) :=
  match l with
  | [] => none
  | c :: rest =>
      if c = braceL then
        match rest with
        | [] => none
        | c2 :: rest2 =>
            if c2 = braceR then
              if rest2.isEmpty then some [] else none
            else
              (parseMembers rest.length rest).bind fun p =>
                if p.2.isEmpty then some p.1 else none
      else none

/-- Value of a little-endian digit list. -/
def ofRevDigits (l : List Nat) : Nat :=
  l.foldr (fun d acc => d + 10 * acc) 0

/-- The input does not start with a decimal digit (used to delimit parsed
numbers). -/
def headNotDigit (l : List Char) : Prop :=
  ∀ c, l.head? = some c → isDigitChar c = false

/-- `serializeParams` (StepEditor, lines 155–159): `undefined` when the
record has no keys, otherwise `JSON.stringify(params)`. -/
def serializeParams (params : List (String × JVal)) : Option String :=
  if params.length = 0 then none
  else some (String.mk (jsonStringifyRecord params))

/-- `parseParams` (StepEditor, lines 178–190): `undefined` (or the falsy
empty string) gives the empty record; an object is returned as-is; a string
is `JSON.parse`d, with any parse error caught and turned into the empty
record. -/
def parseParams (params : Option (String ⊕ List (String × JVal))) :
    List (String × JVal) :=
  match params with
  | none => []
  | some (Sum.inr obj) => obj
  | some (Sum.inl s) =>
      if s = "" then []
      else (jsonParseRecord s.data).getD []

end UiTool.StepEditor

namespace UiTool

/-! ## Theorems: the action and locator tables (C1, C2, C5) -/

/-- Claim C1 counterexample: `getActionTypes` offers the action type
`select`, which is outside the seven-entry set the claim allows, so the
table is not the claimed closed set of seven. -/
theorem C1_select_offered_outside_seven :
    "select" ∈ getActionTypes.map ActionTypeOption.value ∧
    "select" ∉ claimedSevenActionTypes := by
  decide

/-- Claim C1 as amended: the table of action types offered to case authors
is closed and fixed, and `getActionTypes` returns exactly the eleven
entries `navigate`, `click`, `input`, `clear`, `wait`, `verify_text`,
`verify_element`, `select`, `hover`, `scroll`, `screenshot`, in that
order — no `action_type` outside this set is offered. -/
theorem C1_action_table_is_eleven :
    getActionTypes.map ActionTypeOption.value =
      ["navigate", "click", "input", "clear", "wait", "verify_text",
       "verify_element", "select", "hover", "scroll", "screenshot"] := by
  rfl

/-- Claim C2 counterexample: `getLocatorTypes` offers the locator type
`text`, which is outside the claimed five-entry set. -/
theorem C2_text_offered_outside_five :
    "text" ∈ getLocatorTypes.map LocatorTypeOption.value ∧
    "text" ∉ claimedFiveLocatorTypes := by
  decide

/-- Claim C2 as amended: the set of supported `locator_type` values offered
by `getLocatorTypes` is exactly `id`, `xpath`, `css`, `name`, `class`,
`text`, `data-testid`, in that order, and no other locator type is
offered. -/
theorem C2_locator_table_is_seven :
    getLocatorTypes.map LocatorTypeOption.value =
      ["id", "xpath", "css", "name", "class", "text", "data-testid"] := by
  rfl

/-- Claim C5: in the `getActionTypes` table, `navigate` has exactly one
required parameter `url`, `input` and `verify_text` each have exactly one
required parameter `text`, `wait` has a single optional `timeout`
parameter, and `click`, `clear` and `verify_element` have no parameters. -/
theorem C5_action_parameter_specs :
    ((getActionTypes.find? (fun a => a.value == "navigate")).map
        (fun a => a.params.map fun p => (p.key, p.required)) = some [("url", true)]) ∧
    ((getActionTypes.find? (fun a => a.value == "input")).map
        (fun a => a.params.map fun p => (p.key, p.required)) = some [("text", true)]) ∧
    ((getActionTypes.find? (fun a => a.value == "verify_text")).map
        (fun a => a.params.map fun p => (p.key, p.required)) = some [("text", true)]) ∧
    ((getActionTypes.find? (fun a => a.value == "wait")).map
        (fun a => a.params.map fun p => (p.key, p.required)) = some [("timeout", false)]) ∧
    ((getActionTypes.find? (fun a => a.value == "click")).map
        (fun a => a.params) = some []) ∧
    ((getActionTypes.find? (fun a => a.value == "clear")).map
        (fun a => a.params) = some []) ∧
    ((getActionTypes.find? (fun a => a.value == "verify_element")).map
        (fun a => a.params) = some []) := by
  exact ⟨rfl, rfl, rfl, rfl, rfl, rfl, rfl⟩

/-! ## Theorems: the two progress computations (C8) -/

/-- Claim C8 fails on the code: on the same execution record (2 cases
total, 1 passed, 0 failed) the store's `progress` getter reports 50 while
the `ExecutionConsole` view's `progress` computed property reports 0,
because the view destructures `total_count`/`success_count`/`fail_count`,
which are not fields of `Execution`, so they all default to 0. -/
theorem C8_store_and_console_progress_disagree :
    storeProgress (some c8Execution) = 50 ∧
    consoleProgress (some c8Execution) = 0 := by
  exact ⟨rfl, rfl⟩

/-! ## Theorems: step-list editor operations keep orders contiguous (C3) -/

/-- The renumbering loop assigns exactly `n, n+1, …` in position order. -/
theorem renumber_map_step_order (l : List TestStep) :
    ∀ n : Nat, (renumber n l).map TestStep.step_order = List.range' n l.length := by
  induction l with
  | nil => intro n; rfl
  | cons s rest ih =>
      intro n
      simp [renumber, List.range'_succ, ih]

/-- Renumbering does not change the number of steps. -/
theorem renumber_length (l : List TestStep) :
    ∀ n : Nat, (renumber n l).length = l.length := by
  induction l with
  | nil => intro n; rfl
  | cons s rest ih => intro n; simp [renumber, ih]

/-- Any renumbered list satisfies the contiguity invariant. -/
theorem stepOrdersContiguous_renumber (l : List TestStep) :
    stepOrdersContiguous (renumber 1 l) := by
  unfold stepOrdersContiguous
  rw [renumber_map_step_order, renumber_length]

/-- Claim C3: starting from a steps list whose `step_order` fields read
exactly `1..N` in position order, adding a step (`handleAddStep`), deleting
the step at any index (`handleDeleteStep`), and moving a step from any
valid index to any other (`handleReorderSteps`) each yield a list whose
`step_order` fields again read exactly `1..M` in position order, `M` being
the new length. -/
theorem C3_editor_ops_preserve_contiguous_orders (steps : List TestStep)
    (h : stepOrdersContiguous steps) :
    (∀ step, stepOrdersContiguous (handleAddStep steps step)) ∧
    (∀ index, stepOrdersContiguous (handleDeleteStep steps index)) ∧
    (∀ fromIndex toIndex out,
      handleReorderSteps steps fromIndex toIndex = some out →
      stepOrdersContiguous out) := by
  refine ⟨?_, ?_, ?_⟩
  · intro step
    unfold stepOrdersContiguous at h ⊢
    simp only [handleAddStep, List.map_append, List.length_append, List.map_cons,
      List.map_nil, List.length_cons, List.length_nil, h]
    rw [List.range'_concat]
    simp [Nat.add_comm]
  · intro index
    exact stepOrdersContiguous_renumber _
  · intro fromIndex toIndex out hout
    unfold handleReorderSteps at hout
    rcases hget : steps.get? fromIndex with _ | removed
    · rw [hget] at hout; simp at hout
    · rw [hget] at hout
      obtain rfl :
          renumber 1 ((steps.eraseIdx fromIndex).insertIdx toIndex removed) = out := by
        simpa using hout
      exact stepOrdersContiguous_renumber _

/-- Witness for C3 at a concrete three-step list: the hypothesis holds and
deleting the middle step keeps the orders contiguous. -/
theorem C3_witness :
    stepOrdersContiguous (handleDeleteStep demoSteps 1) :=
  (C3_editor_ops_preserve_contiguous_orders demoSteps (by decide)).2.1 1

/-! ## Theorems: `removeCase` (C10) -/

/-- `findIdx?` finds nothing when the predicate holds nowhere. -/
theorem findIdx?_eq_none_of_forall (p : TestCase → Bool) (l : List TestCase)
    (h : ∀ x ∈ l, p x = false) : ∀ i, List.findIdx? p l i = none := by
  induction l with
  | nil => intro i; rfl
  | cons x xs ih =>
      intro i
      rw [List.findIdx?_cons, if_neg (by simp [h x (by simp)])]
      exact ih (fun x hx => h x (by simp [hx])) (i + 1)

/-- `findIdx?` on a list split around the first (and only) hit returns the
position of that hit. -/
theorem findIdx?_split (p : TestCase → Bool) (c : TestCase) (h : p c = true) :
    ∀ (l₁ l₂ : List TestCase), (∀ x ∈ l₁, p x = false) → ∀ i,
      List.findIdx? p (l₁ ++ c :: l₂) i = some (i + l₁.length) := by
  intro l₁
  induction l₁ with
  | nil =>
      intro l₂ _ i
      simp [List.findIdx?_cons, h]
  | cons x xs ih =>
      intro l₂ h₁ i
      rw [List.cons_append, List.findIdx?_cons, if_neg (by simp [h₁ x (by simp)])]
      rw [ih l₂ (fun y hy => h₁ y (by simp [hy])) (i + 1)]
      simp
      omega

/-- Erasing at the position of the middle element of a split removes
exactly that element. -/
theorem eraseIdx_split (c : TestCase) :
    ∀ (l₁ l₂ : List TestCase), (l₁ ++ c :: l₂).eraseIdx l₁.length = l₁ ++ l₂ := by
  intro l₁
  induction l₁ with
  | nil => intro l₂; simp
  | cons x xs ih => intro l₂; simp [List.eraseIdx_cons_succ, ih]

/-- Claim C10: when no case carries the requested id, `removeCase` leaves
the whole state (cases list and pagination) unchanged; when exactly one
case carries it, `removeCase` removes exactly that case and decrements
`pagination.total` by one, leaving the rest of the pagination intact. -/
theorem C10_removeCase_spec (st : CaseStoreState) (id : Int) :
    ((∀ c ∈ st.cases, c.id ≠ id) → removeCase st id = st) ∧
    (∀ l₁ c l₂, st.cases = l₁ ++ c :: l₂ → c.id = id →
      (∀ x ∈ l₁, x.id ≠ id) → (∀ x ∈ l₂, x.id ≠ id) →
      (removeCase st id).cases = l₁ ++ l₂ ∧
      (removeCase st id).pagination.total = st.pagination.total - 1 ∧
      (removeCase st id).pagination.page = st.pagination.page ∧
      (removeCase st id).pagination.page_size = st.pagination.page_size ∧
      (removeCase st id).pagination.pages = st.pagination.pages) := by
  constructor
  · intro hnone
    unfold removeCase
    rw [findIdx?_eq_none_of_forall _ _ (by intro x hx; simp [hnone x hx]) 0]
  · intro l₁ c l₂ hsplit hc h₁ h₂
    have hfind : List.findIdx? (fun c => c.id == id) st.cases 0 = some l₁.length := by
      rw [hsplit, findIdx?_split _ c (by simp [hc]) l₁ l₂
        (by intro x hx; simp [h₁ x hx]) 0]
      simp
    unfold removeCase
    rw [hfind]
    simp [hsplit, eraseIdx_split]

/-- Witness for C10 at a concrete two-case store state: removing case 1
(the unique case with that id) keeps only case 2 and drops the total from
2 to 1. -/
theorem C10_witness :
    (removeCase demoState 1).cases = demoState.cases.drop 1 ∧
    (removeCase demoState 1).pagination.total = 1 := by
  have h := (C10_removeCase_spec demoState 1).2 []
    { id := 1, name := "login", description := "", priority := "P0", tags := "",
      step_count := 3, created_at := "", updated_at := "" }
    (demoState.cases.drop 1) (by decide) (by decide) (by decide) (by decide)
  exact ⟨by rw [h.1]; rfl, by rw [h.2.1]; rfl⟩

end UiTool

namespace UiTool.Engine

/-! ## Theorems: the Case Runner (C4, C6, C7) -/

/-- Folding conjunction over step successes is the `all` of the list. -/
theorem foldl_and_success (l : List StepResult) :
    ∀ b : Bool, l.foldl (fun b r => b && r.success) b = (b && l.all fun r => r.success) := by
  induction l with
  | nil => intro b; simp
  | cons r rest ih =>
      intro b
      simp [List.foldl_cons, ih, Bool.and_assoc]

/-- Claim C6: the overall success flag of a case result is true exactly
when every one of its step results has `success = true`. -/
theorem C6_overall_success_iff_all_steps
    (exec : Step → StepOutcome) (shot : Step → String) (cancel : Nat → Bool)
    (case_id : Int) (steps : List Step) :
    (runCase exec shot cancel case_id steps).success = true ↔
      ∀ r ∈ (runCase exec shot cancel case_id steps).step_results,
        r.success = true := by
  unfold runCase
  simp only [foldl_and_success, Bool.true_and, List.all_eq_true]

/-- With a cancellation flag that first reads true at boundary `k`, the
runner executes exactly the steps before position `k - n` (when started at
boundary `n`) and marks the rest skipped. -/
theorem runSteps_cancel_split (exec : Step → StepOutcome) (shot : Step → String)
    (cancel : Nat → Bool) (k : Nat) (hc : ∀ i, cancel i = true ↔ k ≤ i) :
    ∀ (steps : List Step) (n : Nat),
      runSteps exec shot cancel n steps =
        ((steps.take (k - n)).map (mkStepResult exec shot)) ++
        ((steps.drop (k - n)).map skippedResult) := by
  intro steps
  induction steps with
  | nil => intro n; simp [runSteps]
  | cons s rest ih =>
      intro n
      by_cases hn : cancel n = true
      · have hkn : k ≤ n := (hc n).1 hn
        have h0 : k - n = 0 := by omega
        simp [runSteps, hn, h0]
      · have hlt : n < k := by
          rcases Nat.lt_or_ge n k with h | h
          · exact h
          · exact absurd ((hc n).2 h) hn
        have hsub : k - n = (k - (n + 1)) + 1 := by omega
        rw [runSteps, if_neg hn, ih (n + 1), hsub]
        simp [List.take_succ_cons, List.drop_succ_cons]

/-- Claim C4: once cancellation is requested (the cooperative flag is
monotone and first reads true at step boundary `k`), no step at position
`k` or later starts — those steps are all recorded `skipped` — and the
results of the `k` already-executed steps are retained unchanged in the
case result, in order. -/
theorem C4_cancellation_stops_and_retains
    (exec : Step → StepOutcome) (shot : Step → String) (cancel : Nat → Bool)
    (case_id : Int) (steps : List Step) (k : Nat)
    (hmono : ∀ i j, i ≤ j → cancel i = true → cancel j = true)
    (hk : cancel k = true)
    (hbefore : ∀ j, j < k → cancel j = false) :
    (runCase exec shot cancel case_id steps).step_results =
      ((steps.take k).map (mkStepResult exec shot)) ++
      ((steps.drop k).map skippedResult) := by
  have hc : ∀ i, cancel i = true ↔ k ≤ i := by
    intro i
    constructor
    · intro h
      by_contra hnot
      push_neg at hnot
      rw [hbefore i hnot] at h
      exact Bool.false_ne_true h
    · intro h
      exact hmono k i h hk
  show runSteps exec shot cancel 0 steps = _
  simpa using runSteps_cancel_split exec shot cancel k hc steps 0

/-- Witness for C4: five demo steps with cancellation first observed at
boundary 2 — the two completed step results are retained and the last
three steps are skipped. -/
theorem C4_witness :
    (runCase demoExec demoShot demoCancel 7 demoEngineSteps).step_results =
      ((demoEngineSteps.take 2).map (mkStepResult demoExec demoShot)) ++
      ((demoEngineSteps.drop 2).map skippedResult) :=
  C4_cancellation_stops_and_retains demoExec demoShot demoCancel 7 demoEngineSteps 2
    (by
      intro i j hij hi
      simp only [demoCancel, decide_eq_true_eq] at hi ⊢
      omega)
    (by decide)
    (by decide)

/-- Every entry of the runner's result list is either the recorded result
of an executed step of the case or the skipped marker of one of its
steps. -/
theorem mem_runSteps_cases (exec : Step → StepOutcome) (shot : Step → String)
    (cancel : Nat → Bool) :
    ∀ (steps : List Step) (n : Nat) (r : StepResult),
      r ∈ runSteps exec shot cancel n steps →
      (∃ s ∈ steps, r = mkStepResult exec shot s) ∨
      (∃ s ∈ steps, r = skippedResult s) := by
  intro steps
  induction steps with
  | nil => intro n r hr; simp [runSteps] at hr
  | cons s rest ih =>
      intro n r hr
      rw [runSteps] at hr
      by_cases hn : cancel n = true
      · rw [if_pos hn] at hr
        rcases List.mem_map.1 hr with ⟨s', hs', rfl⟩
        exact Or.inr ⟨s', hs', rfl⟩
      · rw [if_neg hn] at hr
        rcases List.mem_cons.1 hr with rfl | hr
        · exact Or.inl ⟨s, List.mem_cons_self .., rfl⟩
        · rcases ih (n + 1) r hr with ⟨s', hs', h⟩ | ⟨s', hs', h⟩
          · exact Or.inl ⟨s', List.mem_cons_of_mem _ hs', h⟩
          · exact Or.inr ⟨s', List.mem_cons_of_mem _ hs', h⟩

/-- Claim C7: a step result carries a screenshot reference only if its
success flag is false; and when the flag is false, the reference is
present exactly when the step was actually executed and its evidence
capture succeeded. -/
theorem C7_screenshot_only_on_failure
    (exec : Step → StepOutcome) (shot : Step → String) (cancel : Nat → Bool)
    (case_id : Int) (steps : List Step) (r : StepResult)
    (hr : r ∈ (runCase exec shot cancel case_id steps).step_results) :
    (r.screenshot.isSome = true → r.success = false) ∧
    (r.success = false →
      (r.screenshot.isSome = true ↔
        ∃ s ∈ steps, r = mkStepResult exec shot s ∧
          (exec s).success = false ∧ (exec s).captureOk = true)) := by
  have hcases := mem_runSteps_cases exec shot cancel steps 0 r hr
  constructor
  · intro hshot
    rcases hcases with ⟨s, _, rfl⟩ | ⟨s, _, rfl⟩
    · unfold mkStepResult at hshot ⊢
      by_cases hs : (exec s).success
      · simp [hs] at hshot
      · simp [hs]
    · simp [skippedResult] at hshot
  · intro hfail
    constructor
    · intro hshot
      rcases hcases with ⟨s, hs, rfl⟩ | ⟨s, _, rfl⟩
      · refine ⟨s, hs, rfl, ?_, ?_⟩
        · unfold mkStepResult at hshot
          by_cases hsucc : (exec s).success
          · simp [hsucc] at hshot
          · simpa using hsucc
        · unfold mkStepResult at hshot
          by_cases hsucc : (exec s).success
          · simp [hsucc] at hshot
          · by_cases hcap : (exec s).captureOk
            · exact hcap
            · simp [hsucc, hcap] at hshot
      · simp [skippedResult] at hshot
    · rintro ⟨s, _, rfl, hsucc, hcap⟩
      unfold mkStepResult
      simp [hsucc, hcap]

/-- Witness for C7: in an uncancelled demo run, the failing step of order 4
is in the results; the theorem applies to it, so its screenshot (which is
present) certifies that its success flag is false. -/
theorem C7_witness :
    ((mkStepResult demoExec demoShot { order := 4, action_type := "verify_text" }).screenshot.isSome = true →
      (mkStepResult demoExec demoShot { order := 4, action_type := "verify_text" }).success = false) ∧
    ((mkStepResult demoExec demoShot { order := 4, action_type := "verify_text" }).success = false →
      ((mkStepResult demoExec demoShot { order := 4, action_type := "verify_text" }).screenshot.isSome = true ↔
        ∃ s ∈ demoEngineSteps,
          mkStepResult demoExec demoShot { order := 4, action_type := "verify_text" } =
            mkStepResult demoExec demoShot s ∧
          (demoExec s).success = false ∧ (demoExec s).captureOk = true)) :=
  C7_screenshot_only_on_failure demoExec demoShot (fun _ => false) 7 demoEngineSteps
    (mkStepResult demoExec demoShot { order := 4, action_type := "verify_text" })
    (by decide)

end UiTool.Engine

namespace UiTool.StepEditor

/-! ## Theorems: the StepEditor JSON round trip (C9) -/

/-- Hexadecimal printing and reading of one digit are inverse. -/
theorem hexVal?_hexDigitChar : ∀ n < 16, hexVal? (hexDigitChar n) = some n := by
  decide

/-- Code point of a printed decimal digit. -/
theorem toNat_ofNat_digit : ∀ d < 10, (Char.ofNat (48 + d)).toNat = 48 + d := by
  decide

/-- A printed decimal digit satisfies the digit test. -/
theorem isDigitChar_ofNat_digit : ∀ d < 10, isDigitChar (Char.ofNat (48 + d)) = true := by
  decide

/-- Reading a `\u00XX` escape produced for a control character returns that
character and continues with the rest of the input. -/
theorem parseStrBody_unicode (fuel : Nat) (h3 h4 : Char) (v3 v4 : Nat)
    (tail : List Char) (e3 : hexVal? h3 = some v3) (e4 : hexVal? h4 = some v4) :
    parseStrBody (fuel + 1) ('\\' :: 'u' :: '0' :: '0' :: h3 :: h4 :: tail) =
      (parseStrBody fuel tail).map fun p => (Char.ofNat (v3 * 16 + v4) :: p.1, p.2) := by
  show ((hexVal? '0').bind fun v1 =>
      (hexVal? '0').bind fun v2 =>
      (hexVal? h3).bind fun v3 =>
      (hexVal? h4).bind fun v4 =>
      (parseStrBody fuel tail).map fun p =>
        (Char.ofNat (((v1 * 16 + v2) * 16 + v3) * 16 + v4) :: p.1, p.2)) = _
  have h0 : hexVal? '0' = some 0 := by decide
  rw [h0, Option.some_bind, Option.some_bind, e3, Option.some_bind, e4,
    Option.some_bind]
  have harith : ((0 * 16 + 0) * 16 + v3) * 16 + v4 = v3 * 16 + v4 := by omega
  rw [harith]

/-- Reading back one escaped character returns that character and continues
with the rest of the input. -/
theorem parseStrBody_escapeChar (fuel : Nat) (c : Char) (tail : List Char) :
    parseStrBody (fuel + 1) (escapeChar c ++ tail) =
      (parseStrBody fuel tail).map fun p => (c :: p.1, p.2) := by
  unfold escapeChar
  by_cases h1 : c = '"'
  · subst h1; rw [if_pos rfl]; rfl
  rw [if_neg h1]
  by_cases h2 : c = '\\'
  · subst h2; rw [if_pos rfl]; rfl
  rw [if_neg h2]
  by_cases h3 : c = Char.ofNat 8
  · subst h3; rw [if_pos rfl]; rfl
  rw [if_neg h3]
  by_cases h4 : c = '\t'
  · subst h4; rw [if_pos rfl]; rfl
  rw [if_neg h4]
  by_cases h5 : c = '\n'
  · subst h5; rw [if_pos rfl]; rfl
  rw [if_neg h5]
  by_cases h6 : c = Char.ofNat 12
  · subst h6; rw [if_pos rfl]; rfl
  rw [if_neg h6]
  by_cases h7 : c = '\r'
  · subst h7; rw [if_pos rfl]; rfl
  rw [if_neg h7]
  by_cases h8 : c.toNat < 32
  · rw [if_pos h8]
    have hhi : c.toNat / 16 < 16 := by omega
    have hlo : c.toNat % 16 < 16 := by omega
    show parseStrBody (fuel + 1) ('\\' :: 'u' :: '0' :: '0' :: _ :: _ :: tail) = _
    rw [parseStrBody_unicode fuel _ _ _ _ tail (hexVal?_hexDigitChar _ hhi)
      (hexVal?_hexDigitChar _ hlo)]
    have harith : c.toNat / 16 * 16 + c.toNat % 16 = c.toNat := by omega
    rw [harith, Char.ofNat_toNat]
  · rw [if_neg h8]
    show parseStrBody (fuel + 1) (c :: tail) = _
    simp only [parseStrBody]
    rw [if_neg h1, if_neg h2]

/-- Reading back a whole escaped string stops at the closing quote and
returns the original characters, for any fuel above the string length. -/
theorem parseStrBody_escapeList (s : List Char) :
    ∀ (fuel : Nat) (rest : List Char), s.length < fuel →
      parseStrBody fuel (escapeList s ++ '"' :: rest) = some (s, rest) := by
  induction s with
  | nil =>
      intro fuel rest hfuel
      obtain ⟨f, rfl⟩ : ∃ f, fuel = f + 1 :=
        ⟨fuel - 1, by omega⟩
      rfl
  | cons c s ih =>
      intro fuel rest hfuel
      obtain ⟨f, rfl⟩ : ∃ f, fuel = f + 1 :=
        ⟨fuel - 1, by omega⟩
      rw [escapeList, List.append_assoc, parseStrBody_escapeChar,
        ih f rest (by simpa using Nat.lt_of_succ_lt_succ hfuel)]
      rfl

/-- Every digit produced by `natToRevDigits` is below 10. -/
theorem natToRevDigits_lt : ∀ (fuel n : Nat), ∀ d ∈ natToRevDigits fuel n, d < 10 := by
  intro fuel
  induction fuel with
  | zero => intro n d hd; simp [natToRevDigits] at hd
  | succ f ih =>
      intro n d hd
      cases n with
      | zero => simp [natToRevDigits] at hd
      | succ m =>
          rw [natToRevDigits] at hd
          rcases List.mem_cons.1 hd with rfl | hd
          · exact Nat.mod_lt _ (by omega)
          · exact ih _ d hd

/-- `natToRevDigits` really are the little-endian digits: folding them back
up recovers the number, given enough fuel. -/
theorem ofRevDigits_natToRevDigits :
    ∀ (fuel n : Nat), 0 < n → n ≤ fuel → ofRevDigits (natToRevDigits fuel n) = n := by
  intro fuel
  induction fuel with
  | zero => intro n h0 hle; omega
  | succ f ih =>
      intro n h0 hle
      obtain ⟨m, rfl⟩ : ∃ m, n = m + 1 := ⟨n - 1, by omega⟩
      rw [natToRevDigits]
      by_cases hq : (m + 1) / 10 = 0
      · rw [hq]
        have : natToRevDigits f 0 = [] := by cases f <;> rfl
        rw [this]
        show (m + 1) % 10 + 10 * 0 = m + 1
        omega
      · have hqle : (m + 1) / 10 ≤ f := by
          have := Nat.div_lt_self (show 0 < m + 1 by omega) (show 1 < 10 by omega)
          omega
        show (m + 1) % 10 + 10 * ofRevDigits (natToRevDigits f ((m + 1) / 10)) = m + 1
        rw [ih _ (by omega) hqle]
        omega

/-- Reading a reversed digit list printed as characters recovers its
value. -/
theorem parseNatFromChars_revMap (l : List Nat) (h : ∀ d ∈ l, d < 10) :
    parseNatFromChars (l.reverse.map fun d => Char.ofNat (48 + d)) = ofRevDigits l := by
  induction l with
  | nil => rfl
  | cons d l ih =>
      rw [List.reverse_cons, List.map_append]
      show List.foldl _ 0 (_ ++ _) = _
      rw [List.foldl_append]
      have hfold :
          List.foldl (fun acc c => acc * 10 + (c.toNat - 48)) 0
            (l.reverse.map fun d => Char.ofNat (48 + d)) = ofRevDigits l :=
        ih (fun d hd => h d (List.mem_cons_of_mem _ hd))
      rw [hfold]
      show ofRevDigits l * 10 + ((Char.ofNat (48 + d)).toNat - 48) = d + 10 * ofRevDigits l
      rw [toNat_ofNat_digit d (h d (List.mem_cons_self ..))]
      omega

/-- Printing then reading a natural number is the identity. -/
theorem parseNatFromChars_printNat (n : Nat) : parseNatFromChars (printNat n) = n := by
  unfold printNat
  by_cases h0 : n = 0
  · subst h0; rfl
  · rw [if_neg h0, parseNatFromChars_revMap _ (natToRevDigits_lt n n),
      ofRevDigits_natToRevDigits n n (by omega) (by omega)]

/-- Every character of a printed natural number is a decimal digit. -/
theorem printNat_digits (n : Nat) : ∀ c ∈ printNat n, isDigitChar c = true := by
  unfold printNat
  by_cases h0 : n = 0
  · subst h0; intro c hc; simp at hc; subst hc; rfl
  · rw [if_neg h0]
    intro c hc
    rcases List.mem_map.1 hc with ⟨d, hd, rfl⟩
    exact isDigitChar_ofNat_digit d (natToRevDigits_lt n n d (List.mem_reverse.1 hd))

/-- A printed natural number has at least one character. -/
theorem printNat_ne_nil (n : Nat) : printNat n ≠ [] := by
  unfold printNat
  by_cases h0 : n = 0
  · subst h0; simp
  · rw [if_neg h0]
    obtain ⟨m, rfl⟩ : ∃ m, n = m + 1 := ⟨n - 1, by omega⟩
    rw [natToRevDigits]
    simp

/-- `takeDigits` splits an all-digit prefix off exactly at the first
non-digit. -/
theorem takeDigits_append (ds : List Char) :
    ∀ rest : List Char, (∀ c ∈ ds, isDigitChar c = true) → headNotDigit rest →
      takeDigits (ds ++ rest) = (ds, rest) := by
  induction ds with
  | nil =>
      intro rest _ hrest
      cases rest with
      | nil => rfl
      | cons c r =>
          show takeDigits (c :: r) = ([], c :: r)
          rw [takeDigits, if_neg (by simp [hrest c rfl])]
  | cons c ds ih =>
      intro rest hds hrest
      show takeDigits (c :: (ds ++ rest)) = (c :: ds, rest)
      rw [takeDigits, if_pos (hds c (List.mem_cons_self ..)),
        ih rest (fun x hx => hds x (List.mem_cons_of_mem _ hx)) hrest]

/-- Parsing a printed natural number followed by a non-digit returns the
number and the rest. -/
theorem parseNatPart_printNat (n : Nat) (rest : List Char) (hrest : headNotDigit rest) :
    parseNatPart (printNat n ++ rest) = some (n, rest) := by
  unfold parseNatPart
  rw [takeDigits_append _ rest (printNat_digits n) hrest]
  simp only [List.isEmpty_iff]
  rw [if_neg (printNat_ne_nil n), parseNatFromChars_printNat]

/-- Escaping cannot shrink a string. -/
theorem escapeList_length_ge (s : List Char) : s.length ≤ (escapeList s).length := by
  induction s with
  | nil => simp [escapeList]
  | cons c s ih =>
      rw [escapeList, List.length_append]
      have hc : 1 ≤ (escapeChar c).length := by
        unfold escapeChar
        split_ifs <;> simp
      simp only [List.length_cons]
      omega

/-- A decimal digit is none of the characters that select the other
`parseJVal` branches. -/
theorem digit_not_branch (c : Char) (h : isDigitChar c = true) :
    c ≠ '"' ∧ c ≠ '-' ∧ c ≠ 't' ∧ c ≠ 'f' ∧ c ≠ 'n' := by
  refine ⟨fun hc => ?_, fun hc => ?_, fun hc => ?_, fun hc => ?_, fun hc => ?_⟩ <;>
    (subst hc; exact absurd h (by decide))

/-- Printing then reading one scalar JSON value is the identity, whenever
the following input does not begin with a digit. -/
theorem parseJVal_printJVal (v : JVal) (rest : List Char) (hrest : headNotDigit rest) :
    parseJVal (printJVal v ++ rest) = some (v, rest) := by
  cases v with
  | str s =>
      have hshape : printJVal (JVal.str s) ++ rest =
          '"' :: (escapeList s.data ++ '"' :: rest) := by
        simp [printJVal, quoteStr]
      rw [hshape]
      show (parseStrBody (escapeList s.data ++ '"' :: rest).length
        (escapeList s.data ++ '"' :: rest)).map
          (fun p => (JVal.str (String.mk p.1), p.2)) = _
      have hlen : s.data.length < (escapeList s.data ++ '"' :: rest).length := by
        rw [List.length_append]
        have := escapeList_length_ge s.data
        simp only [List.length_cons]
        omega
      rw [parseStrBody_escapeList s.data _ rest hlen]
      rfl
  | num i =>
      by_cases hi : i < 0
      · have hshape : printJVal (JVal.num i) ++ rest =
            '-' :: (printNat i.natAbs ++ rest) := by
          simp [printJVal, printInt, hi]
        rw [hshape]
        show (parseNatPart (printNat i.natAbs ++ rest)).map
          (fun p => (JVal.num (-(p.1 : Int)), p.2)) = _
        rw [parseNatPart_printNat _ rest hrest, Option.map_some']
        have harith : -((i.natAbs : Nat) : Int) = i := by omega
        rw [harith]
      · have hshape : printJVal (JVal.num i) ++ rest = printNat i.toNat ++ rest := by
          simp [printJVal, printInt, hi]
        rw [hshape]
        rcases hp : printNat i.toNat with _ | ⟨hd, tl⟩
        · exact absurd hp (printNat_ne_nil _)
        · have hhd : isDigitChar hd = true :=
            printNat_digits i.toNat hd (by rw [hp]; exact List.mem_cons_self ..)
          obtain ⟨n1, n2, n3, n4, n5⟩ := digit_not_branch hd hhd
          show parseJVal (hd :: (tl ++ rest)) = _
          simp only [parseJVal]
          rw [if_neg n1, if_neg n2, if_neg n3, if_neg n4, if_neg n5]
          rw [show hd :: (tl ++ rest) = printNat i.toNat ++ rest by rw [hp]; rfl]
          rw [parseNatPart_printNat _ rest hrest, Option.map_some']
          have harith : ((i.toNat : Nat) : Int) = i := by omega
          rw [harith]
  | bool b => cases b <;> rfl
  | null => rfl

/-- A list starting with a non-digit satisfies `headNotDigit`. -/
theorem headNotDigit_cons (c : Char) (l : List Char) (h : isDigitChar c = false) :
    headNotDigit (c :: l) := by
  intro d hd
  obtain rfl : c = d := by simpa using hd
  exact h

/-- Parsing the printed member list (with enough fuel) consumes it up to
and including the closing brace and recovers the members. -/
theorem parseMembers_printMembers :
    ∀ (p : List (String × JVal)) (fuel : Nat) (rest : List Char),
      p ≠ [] → p.length ≤ fuel →
      parseMembers fuel (printMembers p ++ braceR :: rest) = some (p, rest) := by
  intro p
  induction p with
  | nil => intro fuel rest hp _; exact absurd rfl hp
  | cons m p' ih =>
      intro fuel rest _ hlen
      obtain ⟨f, rfl⟩ : ∃ f, fuel = f + 1 :=
        ⟨fuel - 1, by
          have h := hlen
          simp only [List.length_cons] at h
          omega⟩
      cases p' with
      | nil =>
          have hshape : printMembers [m] ++ braceR :: rest =
              '"' :: (escapeList m.1.data ++ '"' ::
                (':' :: (printJVal m.2 ++ braceR :: rest))) := by
            simp [printMembers, printMember, quoteStr]
          rw [hshape]
          simp only [parseMembers]
          rw [if_pos trivial]
          have hXlen : m.1.data.length <
              (escapeList m.1.data ++ '"' ::
                (':' :: (printJVal m.2 ++ braceR :: rest))).length := by
            have h1 := escapeList_length_ge m.1.data
            simp only [List.length_append, List.length_cons]
            omega
          rw [parseStrBody_escapeList m.1.data _ _ hXlen, Option.some_bind]
          dsimp only
          rw [if_pos rfl]
          rw [parseJVal_printJVal m.2 _
            (headNotDigit_cons braceR rest (by decide)), Option.some_bind]
          dsimp only
          rw [if_neg (by decide), if_pos rfl]
      | cons m2 p'' =>
          have hshape : printMembers (m :: m2 :: p'') ++ braceR :: rest =
              '"' :: (escapeList m.1.data ++ '"' ::
                (':' :: (printJVal m.2 ++ ',' ::
                  (printMembers (m2 :: p'') ++ braceR :: rest)))) := by
            simp [printMembers, printMember, quoteStr]
          rw [hshape]
          simp only [parseMembers]
          rw [if_pos trivial]
          have hXlen : m.1.data.length <
              (escapeList m.1.data ++ '"' ::
                (':' :: (printJVal m.2 ++ ',' ::
                  (printMembers (m2 :: p'') ++ braceR :: rest)))).length := by
            have h1 := escapeList_length_ge m.1.data
            simp only [List.length_append, List.length_cons]
            omega
          rw [parseStrBody_escapeList m.1.data _ _ hXlen, Option.some_bind]
          dsimp only
          rw [if_pos rfl]
          rw [parseJVal_printJVal m.2 _
            (headNotDigit_cons ',' _ (by decide)), Option.some_bind]
          dsimp only
          rw [if_pos rfl]
          rw [ih f rest (by simp) (by simp at hlen ⊢; omega)]
          rfl

/-- A printed non-empty member list starts with the opening quote of its
first key. -/
theorem printMembers_cons_head (m : String × JVal) (p' : List (String × JVal)) :
    ∃ t, printMembers (m :: p') = '"' :: t := by
  cases p' with
  | nil =>
      refine ⟨escapeList m.1.data ++ '"' :: ':' :: printJVal m.2, ?_⟩
      simp [printMembers, printMember, quoteStr]
  | cons m2 p'' =>
      refine ⟨escapeList m.1.data ++ '"' :: ':' ::
        (printJVal m.2 ++ ',' :: printMembers (m2 :: p'')), ?_⟩
      simp [printMembers, printMember, quoteStr]

/-- A printed member is at least one character long. -/
theorem printMember_length_pos (m : String × JVal) : 1 ≤ (printMember m).length := by
  simp [printMember, quoteStr]

/-- The printed member list is at least as long as the member count (minus
the final brace), so the input length is always enough fuel. -/
theorem printMembers_length_bound :
    ∀ p : List (String × JVal), p.length ≤ (printMembers p).length + 1 := by
  intro p
  induction p with
  | nil => simp [printMembers]
  | cons m p' ih =>
      cases p' with
      | nil => simp [printMembers]
      | cons m2 p'' =>
          rw [printMembers]
          have h1 := printMember_length_pos m
          simp only [List.length_append, List.length_cons] at ih ⊢
          omega

/-- Whole-object round trip: reading back a stringified non-empty record
recovers it. -/
theorem jsonParseRecord_stringify (p : List (String × JVal)) (hp : p ≠ []) :
    jsonParseRecord (jsonStringifyRecord p) = some p := by
  obtain ⟨m, p', rfl⟩ : ∃ m p', p = m :: p' := by
    cases p with
    | nil => exact absurd rfl hp
    | cons a b => exact ⟨a, b, rfl⟩
  obtain ⟨t, ht⟩ := printMembers_cons_head m p'
  have hrec : jsonStringifyRecord (m :: p') =
      braceL :: (printMembers (m :: p') ++ braceR :: []) := by
    simp [jsonStringifyRecord]
  rw [hrec]
  unfold jsonParseRecord
  have hX : printMembers (m :: p') ++ braceR :: ([] : List Char) =
      '"' :: (t ++ braceR :: []) := by rw [ht]; rfl
  rw [hX]
  dsimp only
  rw [if_pos rfl, if_neg (by decide), ← hX]
  have hfuel : (m :: p').length ≤
      (printMembers (m :: p') ++ braceR :: ([] : List Char)).length := by
    have h1 := printMembers_length_bound (m :: p')
    simp only [List.length_append, List.length_cons] at h1 ⊢
    omega
  rw [parseMembers_printMembers (m :: p') _ [] (by simp) hfuel, Option.some_bind]
  rfl

/-- Claim C9: for every action-parameter record, serialising with
`serializeParams` and reading back with `parseParams` restores the record —
in particular any record with at least one key survives the round trip —
and the empty record serialises to `undefined`, which `parseParams` maps
back to the empty record. -/
theorem C9_serialize_parse_roundtrip (p : List (String × JVal)) :
    parseParams ((serializeParams p).map Sum.inl) = p ∧
    serializeParams [] = none ∧
    parseParams none = ([] : List (String × JVal)) := by
  refine ⟨?_, rfl, rfl⟩
  by_cases hp : p = []
  · subst hp; rfl
  · have hlen : ¬ p.length = 0 := by
      cases p with
      | nil => exact absurd rfl hp
      | cons a b => simp
    unfold serializeParams
    rw [if_neg hlen]
    show (if String.mk (jsonStringifyRecord p) = "" then []
      else (jsonParseRecord (String.mk (jsonStringifyRecord p)).data).getD []) = p
    have hne : ¬ String.mk (jsonStringifyRecord p) = "" := by
      intro h
      have hdata := congrArg String.data h
      unfold jsonStringifyRecord at hdata
      simp at hdata
    rw [if_neg hne]
    show (jsonParseRecord (jsonStringifyRecord p)).getD [] = p
    rw [jsonParseRecord_stringify p hp]
    rfl

end UiTool.StepEditor
